import Mathlib

/-!
Shallow embedding of the two core engines of the PDF-cleaning repository:
the image classification engine (src/services/image_classifier.py) and the
multi-algorithm header/footer detection engine
(src/services/header_footer_detector.py), together with the caller-side
error handling of src/scripts/clean_pdfs.py.

Machine reals (Python floats) are modelled as rationals; Python lists as
Lean lists; Python dicts keyed in insertion order as first-occurrence
deduplicated key lists.
-/

/-- Python str.strip(): drop whitespace from both ends (structural, so
concrete instances evaluate in the kernel). -/
def pyStrip (s : String) : String :=
  String.mk (((s.data.dropWhile Char.isWhitespace).reverse.dropWhile
    Char.isWhitespace).reverse)

/-- Keep the elements not yet seen, in order (structural helper). -/
def firstDedupAux {α : Type} [DecidableEq α] : List α → List α → List α
  | [], _ => []
  | x :: xs, seen =>
    if x ∈ seen then firstDedupAux xs seen
    else x :: firstDedupAux xs (x :: seen)

/-- First-occurrence deduplication: the key order of a Python dict/Counter
built by repeated insertion. -/
def firstDedup {α : Type} [DecidableEq α] (l : List α) : List α :=
  firstDedupAux l []

/-- Python round(y / 10) for a natural y (OCR token coordinates are
nonnegative integers): nearest integer with ties to even, which is what
float rounding computes for these magnitudes. -/
def natRoundDiv10 (y : ℕ) : ℕ :=
  let q := y / 10
  let r := y % 10
  if r < 5 then q
  else if 5 < r then q + 1
  else if q % 2 = 0 then q else q + 1

/-- round(y / VERTICAL_TOLERANCE) * VERTICAL_TOLERANCE with tolerance 10,
as in _detect_table_structure. -/
def rowKey (y : ℕ) : ℕ := 10 * natRoundDiv10 y

/-- Python round for a rational (block coordinates), ties to even. -/
def qRoundHalfEven (x : ℚ) : ℤ :=
  let f := ⌊x⌋
  if x - (f : ℚ) < 1/2 then f
  else if (1 : ℚ)/2 < x - (f : ℚ) then f + 1
  else if f % 2 = 0 then f else f + 1

/-- round(x / POSITION_TOLERANCE) * POSITION_TOLERANCE with tolerance 10,
as in _algorithm_bbox_matching. -/
def posRound10 (x : ℚ) : ℤ := 10 * qRoundHalfEven (x / 10)

/-! ## Image classification engine (src/services/image_classifier.py) -/

inductive Classification
  | table
  | important
  | decorative
deriving DecidableEq, Repr

/-- Result dict of ImageClassifier._ocr_image. -/
structure OcrResult where
  text : String
  line_count : ℕ
  confidence : ℚ
  has_table_structure : Bool
deriving DecidableEq, Repr

/-- The images-section configuration values read in ImageClassifier.__init__. -/
structure ImgConfig where
  area_threshold : ℚ
  min_lines_for_table : ℕ
  keep_tables : Bool
  remove_decorative : Bool
deriving Repr

/-- Default configuration values of ImageClassifier.__init__. -/
def defaultImgConfig : ImgConfig :=
  { area_threshold := 1/20
    min_lines_for_table := 3
    keep_tables := true
    remove_decorative := true }

/-- ImageClassifier._classify_image: the ordered early-return rule cascade. -/
def classifyImage (cfg : ImgConfig) (area_percentage : ℚ) (ocr : OcrResult) :
    Classification :=
  if ocr.has_table_structure then .table
  else if cfg.min_lines_for_table ≤ ocr.line_count then .table
  else if 0 < ocr.line_count ∧ 10 < ocr.text.length then .important
  else if 1/5 < area_percentage then .important
  else if 1/10 < area_percentage then .important
  else if area_percentage < cfg.area_threshold ∧ ocr.line_count = 0 then .decorative
  else .important

/-- One OCR data token as used by _detect_table_structure: entries of the
parallel arrays text/top/left of pytesseract image_to_data. -/
structure OcrToken where
  text : String
  top : ℕ
  left : ℕ
deriving DecidableEq, Repr

/-- The tokens whose text survives the blank filter
(`if not ocr_data['text'][i].strip(): continue`). -/
def nonBlankTokens (toks : List OcrToken) : List OcrToken :=
  toks.filter (fun t => pyStrip t.text ≠ "")

/-- The distinct row keys of the rows dict, in insertion order. -/
def tokenRowKeys (toks : List OcrToken) : List ℕ :=
  firstDedup ((nonBlankTokens toks).map (fun t => rowKey t.top))

/-- The tokens grouped under one row key. -/
def rowTokens (toks : List OcrToken) (k : ℕ) : List OcrToken :=
  (nonBlankTokens toks).filter (fun t => rowKey t.top = k)

/-- ImageClassifier._detect_table_structure. -/
def detectTableStructure (toks : List OcrToken) : Bool :=
  if toks.length < 6 then false
  else if (tokenRowKeys toks).length < 2 then false
  else (tokenRowKeys toks).any (fun k => 2 ≤ (rowTokens toks k).length)

/-- ImageClassifier._ocr_image's error handling: the whole body sits in a
try/except, so a raising OCR/PIL call is caught inside and replaced by the
empty result (empty text, line_count 0, confidence 0, no table
structure). -/
def ocrImage (raw : Except Unit OcrResult) : OcrResult :=
  match raw with
  | .ok r => r
  | .error _ => ⟨"", 0, 0, false⟩

/-- Per-image outcome of the per-image body of analyze_images: an image
whose bbox lookup and extraction succeeded, carrying area ratio and the
raw outcome of the OCR call (a raising OCR is caught inside _ocr_image,
see ocrImage); an image whose page.get_image_rects came back empty; or an
exception reaching analyze_images' own except handler (bbox lookup or
image extraction failure). page and xref identify the image. -/
inductive ImgOutcome
  | ok (page xref : ℕ) (area : ℚ) (rawOcr : Except Unit OcrResult)
  | noRects (page xref : ℕ)
  | failure (page xref : ℕ)
deriving Repr

/-- The fields of the recorded image_info dicts that the claims are about
(page, xref, classification, and the failure reason when present). -/
structure ImageInfo where
  page : ℕ
  xref : ℕ
  classification : Classification
  reason : Option String
deriving DecidableEq, Repr

/-- The record analyze_images appends for one image, if any. An OCR-level
error is caught inside _ocr_image, so the image is classified through the
normal cascade on the empty OCR result with no recorded reason; only an
exception reaching the outer except gets the force-important record. -/
def imgRecord (cfg : ImgConfig) : ImgOutcome → Option ImageInfo
  | .ok p x a raw => some ⟨p, x, classifyImage cfg a (ocrImage raw), none⟩
  | .noRects _ _ => none
  | .failure p x => some ⟨p, x, .important, some "Error during analysis - kept for safety"⟩

/-- The result dict of analyze_images that downstream consumers read. -/
structure AnalysisOut where
  total_images : ℕ
  decorative_images : List ImageInfo
  important_images : List ImageInfo
  table_images : List ImageInfo
deriving Repr

/-- ImageClassifier.analyze_images over the per-image outcomes of one
document, in document order. total_images counts every image; table
records go to both table_images and important_images; failure records go
to important_images. -/
def analyzeImages (cfg : ImgConfig) (imgs : List ImgOutcome) : AnalysisOut :=
  let recs := imgs.filterMap (imgRecord cfg)
  { total_images := imgs.length
    decorative_images := recs.filter (fun r => r.classification = .decorative)
    important_images := recs.filter
      (fun r => r.classification = .table ∨ r.classification = .important)
    table_images := recs.filter (fun r => r.classification = .table) }

/-- Observable effects of one call of ImageClassifier.remove_decorative_images:
the returned count, whether the input document was opened, and whether an
output file was saved. -/
structure RemovalRun where
  removed : ℕ
  openedInput : Bool
  wroteOutput : Bool
deriving DecidableEq, Repr

/-- ImageClassifier.remove_decorative_images: the remove_decorative config
gate is checked before fitz.open; afterwards each listed image is covered
and the document saved. -/
def removeDecorativeImages (cfg : ImgConfig) (decorative : List ImageInfo) :
    RemovalRun :=
  if cfg.remove_decorative = false then ⟨0, false, false⟩
  else ⟨decorative.length, true, true⟩

/-! ## String similarity (difflib.SequenceMatcher ratio, no junk; the
autojunk heuristic only activates for strings of length at least 200,
outside the header/footer pattern sizes modelled here) -/

/-- Length of the common run of two lists starting at their heads. -/
def commonRun : List Char → List Char → ℕ
  | x :: xs, y :: ys => if x = y then commonRun xs ys + 1 else 0
  | _, _ => 0

/-- Best (i, j, k) seen so far, improved only by a strictly longer run, so
that iterating i then j in ascending order returns the maximal run with
the least i and then the least j - the documented behaviour of
SequenceMatcher.find_longest_match without junk. -/
def flmFold (a b : List Char) : ℕ × ℕ × ℕ :=
  (List.range a.length).foldl
    (fun best i =>
      (List.range b.length).foldl
        (fun best' j =>
          let k := commonRun (a.drop i) (b.drop j)
          if best'.2.2 < k then (i, j, k) else best')
        best)
    (0, 0, 0)

/-- Total size of the matching blocks: recursive split around the longest
match, as SequenceMatcher.get_matching_blocks computes. Fuel bounds the
recursion; a.length + 1 always suffices. -/
def matchingTotal : ℕ → List Char → List Char → ℕ
  | 0, _, _ => 0
  | fuel + 1, a, b =>
    let ijk := flmFold a b
    let i := ijk.1
    let j := ijk.2.1
    let k := ijk.2.2
    if k = 0 then 0
    else
      matchingTotal fuel (a.take i) (b.take j) + k +
        matchingTotal fuel (a.drop (i + k)) (b.drop (j + k))

/-- difflib SequenceMatcher(None, a, b).ratio(): 2*M/T, and 1.0 when both
strings are empty (difflib._calculate_ratio). -/
def ratioQ (sa sb : String) : ℚ :=
  let a := sa.data
  let b := sb.data
  if a.length + b.length = 0 then 1
  else (2 * matchingTotal (a.length + b.length + 1) a b : ℚ) / (a.length + b.length)

/-! ## Header/footer detection engine (src/services/header_footer_detector.py) -/

/-- One text block of page.get_text("blocks"): (x0, y0, x1, y1, text). -/
structure Block where
  x0 : ℚ
  y0 : ℚ
  x1 : ℚ
  y1 : ℚ
  text : String
deriving DecidableEq, Repr

/-- One sampled page: its height and its text blocks in extraction order. -/
structure Page where
  height : ℚ
  blocks : List Block
deriving Repr

/-- The result dict each detection algorithm returns (the preview summary,
a human-readable sample, is not modelled). -/
structure AlgResult where
  headers : List String
  footers : List String
  consistency_score : ℚ
deriving DecidableEq, Repr

/-- Insert x after every element y with le y x (structural helper). -/
def stableInsert {α : Type} (le : α → α → Bool) (x : α) : List α → List α
  | [] => [x]
  | y :: ys => if le y x then y :: stableInsert le x ys else x :: y :: ys

/-- Stable sort by repeated insertion; extensionally equal to any stable
sort, in particular Python sorted. -/
def stableSort {α : Type} (le : α → α → Bool) (l : List α) : List α :=
  l.foldl (fun acc x => stableInsert le x acc) []

/-- sorted(blocks, key=lambda b: b[1]): stable sort by y0. -/
def sortBlocksByY (blocks : List Block) : List Block :=
  stableSort (fun a b => decide (a.y0 ≤ b.y0)) blocks

/-- Candidate filter of _algorithm_text_repetition:
`if text and len(text) > 3` on the stripped block text. -/
def trQualify (b : Block) : Option String :=
  let t := pyStrip b.text
  if 3 < t.length then some t else none

/-- All header-candidate occurrences of _algorithm_text_repetition: per
nonempty page, the stripped texts of the top-2 blocks by y0. -/
def trHeaderOcc (pages : List Page) : List String :=
  pages.flatMap (fun pg =>
    if pg.blocks.isEmpty then []
    else ((sortBlocksByY pg.blocks).take 2).filterMap trQualify)

/-- All footer-candidate occurrences: the bottom-2 blocks by y0. -/
def trFooterOcc (pages : List Page) : List String :=
  pages.flatMap (fun pg =>
    if pg.blocks.isEmpty then []
    else
      let sorted := sortBlocksByY pg.blocks
      (sorted.drop (sorted.length - 2)).filterMap trQualify)

/-- max(counter.values()) over a nonempty occurrence list (0 if empty). -/
def maxMult (occ : List String) : ℕ :=
  ((firstDedup occ).map (fun t => occ.count t)).foldr max 0

/-- The candidates retained by the `count / total_sampled >= threshold`
filter, in Counter key order. -/
def retained (occ : List String) (total : ℕ) (threshold : ℚ) : List String :=
  (firstDedup occ).filter (fun t => threshold ≤ (occ.count t : ℚ) / total)

/-- The consistency-score computation shared by all three algorithms:
add each side's max fraction when that side has candidates, then halve
when either side has candidates, else 0. -/
def scorePair (mh mf : ℕ) (hne fne : Bool) (total : ℕ) : ℚ :=
  let s := (if hne then (mh : ℚ) / total else 0) + (if fne then (mf : ℚ) / total else 0)
  if hne || fne then s / 2 else 0

/-- HeaderFooterDetector._algorithm_text_repetition over the sampled pages
(total_sampled = number of sampled pages). -/
def algTR (pages : List Page) (threshold : ℚ) : AlgResult :=
  let total := pages.length
  let ho := trHeaderOcc pages
  let fo := trFooterOcc pages
  { headers := retained ho total threshold
    footers := retained fo total threshold
    consistency_score := scorePair (maxMult ho) (maxMult fo) (!ho.isEmpty) (!fo.isEmpty) total }

/-- Block filter of _algorithm_bbox_matching and _algorithm_fuzzy_matching:
`if not text or len(text) < 3: continue` on the stripped text. -/
def bbQualify (b : Block) : Option String :=
  let t := pyStrip b.text
  if 3 ≤ t.length then some t else none

/-- Quantized top-left position key of _algorithm_bbox_matching. -/
def posKey (b : Block) : ℤ × ℤ := (posRound10 b.x0, posRound10 b.y0)

/-- The (position key, text) pairs inserted into header_positions: blocks
with y0 in the top 10% of the page height. -/
def bbHeaderEntries (pages : List Page) : List ((ℤ × ℤ) × String) :=
  pages.flatMap (fun pg =>
    if pg.blocks.isEmpty then []
    else pg.blocks.filterMap (fun b =>
      (bbQualify b).bind (fun t =>
        if b.y0 < pg.height * (1/10) then some (posKey b, t) else none)))

/-- The (position key, text) pairs inserted into footer_positions: blocks
not in the header region with y0 below the bottom 10% line. -/
def bbFooterEntries (pages : List Page) : List ((ℤ × ℤ) × String) :=
  pages.flatMap (fun pg =>
    if pg.blocks.isEmpty then []
    else pg.blocks.filterMap (fun b =>
      (bbQualify b).bind (fun t =>
        if b.y0 < pg.height * (1/10) then none
        else if pg.height * (9/10) < b.y0 then some (posKey b, t) else none)))

/-- The texts recorded at one position key, in insertion order. -/
def textsAt (entries : List ((ℤ × ℤ) × String)) (k : ℤ × ℤ) : List String :=
  entries.filterMap (fun e => if e.1 = k then some e.2 else none)

/-- Counter(texts).most_common(1)[0]: the first-encountered text with the
maximal count (heapq keeps insertion order among ties). -/
def mostCommon (texts : List String) : String × ℕ :=
  (firstDedup texts).foldl
    (fun best t =>
      let c := texts.count t
      if best.2 < c then (t, c) else best)
    ("", 0)

/-- The per-position winners retained by the threshold filter, before the
final set() deduplication. -/
def bbRetained (entries : List ((ℤ × ℤ) × String)) (total : ℕ) (threshold : ℚ) :
    List String :=
  (firstDedup (entries.map Prod.fst)).filterMap (fun k =>
    let mc := mostCommon (textsAt entries k)
    if threshold ≤ (mc.2 : ℚ) / total then some mc.1 else none)

/-- max(len(texts) for texts in positions.values()) (0 if no positions). -/
def bbMaxMatch (entries : List ((ℤ × ℤ) × String)) : ℕ :=
  ((firstDedup (entries.map Prod.fst)).map (fun k => (textsAt entries k).length)).foldr max 0

/-- HeaderFooterDetector._algorithm_bbox_matching over the sampled pages.
The final list(set(...)) is modelled as first-occurrence deduplication
(Python set order is unspecified; membership and cardinality agree). -/
def algBB (pages : List Page) (threshold : ℚ) : AlgResult :=
  let total := pages.length
  let he := bbHeaderEntries pages
  let fe := bbFooterEntries pages
  { headers := firstDedup (bbRetained he total threshold)
    footers := firstDedup (bbRetained fe total threshold)
    consistency_score := scorePair (bbMaxMatch he) (bbMaxMatch fe) (!he.isEmpty) (!fe.isEmpty) total }

/-- re.sub(r'\d+', '#', text): replace each maximal digit run by '#'.
The flag records whether we are inside a digit run. -/
def normDigitsAux : List Char → Bool → List Char
  | [], _ => []
  | c :: cs, inRun =>
    if c.isDigit then
      if inRun then normDigitsAux cs true else '#' :: normDigitsAux cs true
    else c :: normDigitsAux cs false

def normDigits (s : String) : String := String.mk (normDigitsAux s.data false)

/-- One fuzzy group: the normalized pattern that founded it and the
original texts added to it. -/
structure FuzzyGroup where
  pattern : String
  examples : List String
deriving DecidableEq, Repr

/-- HeaderFooterDetector._add_to_fuzzy_group: join the first group whose
pattern is 0.85-similar, else append a new group. -/
def addToFuzzyGroup : List FuzzyGroup → String → String → List FuzzyGroup
  | [], pat, ex => [⟨pat, [ex]⟩]
  | g :: gs, pat, ex =>
    if (17 : ℚ)/20 ≤ ratioQ g.pattern pat then
      ⟨g.pattern, g.examples ++ [ex]⟩ :: gs
    else g :: addToFuzzyGroup gs pat ex

/-- The (normalized, original) header-region entries of
_algorithm_fuzzy_matching, in processing order (pages in sample order,
blocks sorted by y0 within a page). -/
def fzHeaderStream (pages : List Page) : List (String × String) :=
  pages.flatMap (fun pg =>
    if pg.blocks.isEmpty then []
    else (sortBlocksByY pg.blocks).filterMap (fun b =>
      (bbQualify b).bind (fun t =>
        if b.y0 < pg.height * (1/10) then some (normDigits t, t) else none)))

/-- The footer-region entries (elif branch: not header region and below
the 90% line). -/
def fzFooterStream (pages : List Page) : List (String × String) :=
  pages.flatMap (fun pg =>
    if pg.blocks.isEmpty then []
    else (sortBlocksByY pg.blocks).filterMap (fun b =>
      (bbQualify b).bind (fun t =>
        if b.y0 < pg.height * (1/10) then none
        else if pg.height * (9/10) < b.y0 then some (normDigits t, t) else none)))

/-- Fold a stream of (normalized, original) entries into fuzzy groups. -/
def buildGroups (stream : List (String × String)) : List FuzzyGroup :=
  stream.foldl (fun gs e => addToFuzzyGroup gs e.1 e.2) []

/-- The group patterns retained by the threshold filter. -/
def fzRetained (groups : List FuzzyGroup) (total : ℕ) (threshold : ℚ) : List String :=
  groups.filterMap (fun g =>
    if threshold ≤ (g.examples.length : ℚ) / total then some g.pattern else none)

/-- max(len(g.examples) for g in groups) (0 if no groups). -/
def fzMaxSize (groups : List FuzzyGroup) : ℕ :=
  (groups.map (fun g => g.examples.length)).foldr max 0

/-- HeaderFooterDetector._algorithm_fuzzy_matching over the sampled pages. -/
def algFZ (pages : List Page) (threshold : ℚ) : AlgResult :=
  let total := pages.length
  let hg := buildGroups (fzHeaderStream pages)
  let fg := buildGroups (fzFooterStream pages)
  { headers := fzRetained hg total threshold
    footers := fzRetained fg total threshold
    consistency_score := scorePair (fzMaxSize hg) (fzMaxSize fg) (!hg.isEmpty) (!fg.isEmpty) total }

/-- The detector configuration values read in HeaderFooterDetector.__init__
(algorithms is the configured name list, checked by membership). -/
structure HFConfig where
  threshold : ℚ
  sample_pages : ℕ
  algorithms : List String
deriving Repr

/-- Default configuration of HeaderFooterDetector.__init__. -/
def defaultHFConfig : HFConfig :=
  { threshold := 17/20
    sample_pages := 50
    algorithms := ["text_repetition", "bbox_matching", "fuzzy_matching"] }

/-- The sampled page indices of detect(): sorted set of the first
pages_to_check and last pages_to_check indices. -/
def samplePageIdxs (sample_pages total_pages : ℕ) : List ℕ :=
  let ptc := min sample_pages total_pages
  (List.range total_pages).filter (fun i => i < ptc ∨ total_pages - ptc ≤ i)

/-- The results dict of detect(), in its insertion order: text_repetition,
then bbox_matching, then fuzzy_matching, each present when its name is in
the configured algorithm list. -/
def configuredResults (algs : List String) (tr bb fz : AlgResult) :
    List (String × AlgResult) :=
  (if "text_repetition" ∈ algs then [("text_repetition", tr)] else []) ++
    (if "bbox_matching" ∈ algs then [("bbox_matching", bb)] else []) ++
      (if "fuzzy_matching" ∈ algs then [("fuzzy_matching", fz)] else [])

/-- Python max(items, key=score): keep the first entry, replace only on a
strictly greater score, so the first-encountered maximum wins. -/
def pyMaxByScore : List (String × AlgResult) → Option (String × AlgResult)
  | [] => none
  | x :: xs =>
    some (xs.foldl
      (fun best y =>
        if best.2.consistency_score < y.2.consistency_score then y else best)
      x)

/-- HeaderFooterDetector.detect over a document given as the per-page block
lists: sample pages, run the configured algorithms, select the best result
(none only for an empty results dict, where Python max raises ValueError). -/
def sampledPages (cfg : HFConfig) (doc : List Page) : List Page :=
  (samplePageIdxs cfg.sample_pages doc.length).filterMap (fun i => doc.get? i)

def detect (cfg : HFConfig) (doc : List Page) : Option (String × AlgResult) :=
  pyMaxByScore
    (configuredResults cfg.algorithms
      (algTR (sampledPages cfg doc) cfg.threshold)
      (algBB (sampledPages cfg doc) cfg.threshold)
      (algFZ (sampledPages cfg doc) cfg.threshold))

/-! ### Exception propagation in detect and its caller
(src/scripts/clean_pdfs.py, process_pdf_file STEP 2) -/

/-- detect() run with each configured algorithm either returning a result
or raising. detect has no per-algorithm handler: the first raising
configured algorithm aborts the whole call; an empty results dict makes
Python max raise ValueError. -/
def detectRun (algs : List String) (runs : String → Except Unit AlgResult) :
    Except Unit (String × AlgResult) :=
  let built : Except Unit (List (String × AlgResult)) :=
    ["text_repetition", "bbox_matching", "fuzzy_matching"].foldlM
      (fun acc name =>
        if name ∈ algs then
          (runs name).map (fun r => acc ++ [(name, r)])
        else pure acc)
      []
  match built with
  | .error e => .error e
  | .ok rs =>
    match pyMaxByScore rs with
    | some best => .ok best
    | none => .error ()

/-- The header/footer figures the caller records for the document. -/
structure HFStepOut where
  headers : List String
  footers : List String
  consistency_score : ℚ
  failed : Bool
  documentAborted : Bool
deriving DecidableEq, Repr

/-- STEP 2 of process_pdf_file: on any exception out of detect, substitute
empty header/footer sets with score 0 and a failed status; either way the
document's processing continues to the next step. -/
def hfDetectionStep (algs : List String) (runs : String → Except Unit AlgResult) :
    HFStepOut :=
  match detectRun algs runs with
  | .ok (_, r) =>
    { headers := r.headers, footers := r.footers
      consistency_score := r.consistency_score
      failed := false, documentAborted := false }
  | .error _ =>
    { headers := [], footers := [], consistency_score := 0
      failed := true, documentAborted := false }

/-! ## Redaction applier: _text_matches_pattern and remove_headers_footers.
The regex fragment modelled covers the patterns the detector produces:
literal characters, the dot, escapes (with backslash-d as the digit class,
injected by the '#' wildcard replacement), and the three postfix
quantifiers. Constructs outside the fragment make the modelled compile
step fail, as an invalid pattern makes re.fullmatch raise. -/

inductive RE
  | fail
  | eps
  | lit (c : Char)
  | anyc
  | digit
  | seq (r s : RE)
  | alt (r s : RE)
  | star (r : RE)
deriving DecidableEq, Repr

def RE.nullable : RE → Bool
  | .fail => false
  | .eps => true
  | .lit _ => false
  | .anyc => false
  | .digit => false
  | .seq r s => r.nullable && s.nullable
  | .alt r s => r.nullable || s.nullable
  | .star _ => true

/-- Brzozowski derivative. The dot does not match a newline
(re.fullmatch default flags). -/
def RE.deriv : RE → Char → RE
  | .fail, _ => .fail
  | .eps, _ => .fail
  | .lit c, x => if c = x then .eps else .fail
  | .anyc, x => if x = '\n' then .fail else .eps
  | .digit, x => if x.isDigit then .eps else .fail
  | .seq r s, x =>
    if r.nullable then .alt (.seq (r.deriv x) s) (s.deriv x)
    else .seq (r.deriv x) s
  | .alt r s, x => .alt (r.deriv x) (s.deriv x)
  | .star r, x => .seq (r.deriv x) (.star r)

/-- Full-string match (re.fullmatch viewed as a boolean). -/
def reFullMatch (r : RE) (s : String) : Bool :=
  (s.data.foldl RE.deriv r).nullable

/-- Parse the regex fragment into atoms (kept in reverse order); the flag
records whether the previous atom was just quantified, since a quantifier
needs a preceding unquantified atom. -/
def parseAtoms : List Char → List RE → Bool → Except Unit (List RE)
  | [], acc, _ => .ok acc
  | '\\' :: [], _, _ => .error ()
  | '\\' :: c :: rest, acc, _ =>
    if c = 'd' then parseAtoms rest (RE.digit :: acc) false
    else if c.isAlphanum then .error ()
    else parseAtoms rest (RE.lit c :: acc) false
  | '.' :: rest, acc, _ => parseAtoms rest (RE.anyc :: acc) false
  | '*' :: rest, a :: acc, lastQ =>
    if lastQ then .error () else parseAtoms rest (RE.star a :: acc) true
  | '+' :: rest, a :: acc, lastQ =>
    if lastQ then .error () else parseAtoms rest (RE.seq a (RE.star a) :: acc) true
  | '?' :: rest, a :: acc, lastQ =>
    if lastQ then .error () else parseAtoms rest (RE.alt a RE.eps :: acc) true
  | '*' :: _, [], _ => .error ()
  | '+' :: _, [], _ => .error ()
  | '?' :: _, [], _ => .error ()
  | c :: rest, acc, _ =>
    if c ∈ ['(', ')', '[', ']', '{', '}', '|', '^', '$'] then .error ()
    else parseAtoms rest (RE.lit c :: acc) false

/-- pattern.replace('#', backslash-d-plus): each '#' becomes the
digit-run matcher. -/
def hashToDigitRun : List Char → List Char
  | [] => []
  | c :: cs =>
    if c = '#' then '\\' :: 'd' :: '+' :: hashToDigitRun cs
    else c :: hashToDigitRun cs

/-- Compile the wildcard-normalized pattern into a regex. -/
def compilePattern (pattern : String) : Except Unit RE :=
  (parseAtoms (hashToDigitRun pattern.data) [] false).map
    (fun acc => acc.foldl (fun r a => RE.seq a r) RE.eps)

/-- HeaderFooterDetector._text_matches_pattern: exact equality, then the
wildcard regex (an invalid pattern raises re.error, modelled as the error
case), then SequenceMatcher similarity at least 0.90. -/
def textMatchesPattern (text pattern : String) : Except Unit Bool :=
  if text = pattern then .ok true
  else
    match compilePattern pattern with
    | .error _ => .error ()
    | .ok r =>
      if reFullMatch r text then .ok true
      else if 9/10 ≤ ratioQ text pattern then .ok true
      else .ok false

/-- The header loop then (on no match) the footer loop of
remove_headers_footers, with break on the first match; an exception from
the matcher propagates. -/
def matchAnyPattern (patterns : List String) (text : String) : Except Unit Bool :=
  match patterns with
  | [] => .ok false
  | p :: ps =>
    match textMatchesPattern text p with
    | .error e => .error e
    | .ok true => .ok true
    | .ok false => matchAnyPattern ps text

def spanShouldRemove (headers footers : List String) (text : String) :
    Except Unit Bool :=
  match matchAnyPattern headers text with
  | .error e => .error e
  | .ok true => .ok true
  | .ok false => matchAnyPattern footers text

/-- Sequential traversal: the first error aborts the pass, as an exception
aborts the span loop. -/
def exceptMapList {α β : Type} (F : α → Except Unit β) : List α → Except Unit (List β)
  | [] => .ok []
  | a :: as =>
    match F a with
    | .error e => .error e
    | .ok b =>
      match exceptMapList F as with
      | .error e => .error e
      | .ok bs => .ok (b :: bs)

/-- HeaderFooterDetector.remove_headers_footers over the span texts of each
page: returns the per-span overlay flags (true = covered by a white
rectangle) and the removed_count; an exception aborts the pass before the
output document is saved. Span texts are stripped before matching. -/
def removeHeadersFooters (headers footers : List String)
    (pages : List (List String)) : Except Unit (ℕ × List (List Bool)) :=
  match exceptMapList (fun spans =>
      exceptMapList (fun s => spanShouldRemove headers footers (pyStrip s)) spans)
      pages with
  | .error e => .error e
  | .ok flags => .ok ((flags.map (fun pg => pg.count true)).sum, flags)

/-! ## Spec-side definitions (named from the specification's wording, for
refinement comparisons against the source embedding) -/

/-- First-match-wins evaluation of an ordered predicate/result rule list. -/
def firstMatch : List (Bool × Classification) → Classification → Classification
  | [], d => d
  | (c, r) :: rest, d => if c then r else firstMatch rest d

/-- The spec's explicit seven-rule list (rules 1-6; rule 7 is the
default). -/
def spec_imageRules (cfg : ImgConfig) (area : ℚ) (o : OcrResult) :
    List (Bool × Classification) :=
  [(o.has_table_structure, .table),
   (decide (cfg.min_lines_for_table ≤ o.line_count), .table),
   (decide (0 < o.line_count ∧ 10 < o.text.length), .important),
   (decide ((1 : ℚ)/5 < area), .important),
   (decide ((1 : ℚ)/10 < area), .important),
   (decide (area < cfg.area_threshold ∧ o.line_count = 0), .decorative)]

/-- The spec's cascade: first matching rule wins, default important. -/
def spec_classifyCascade (cfg : ImgConfig) (area : ℚ) (o : OcrResult) :
    Classification :=
  firstMatch (spec_imageRules cfg area o) .important

/-- The spec's table-structure criterion: the non-blank tokens group by
vertical position (tolerance-10 bands) into at least 2 distinct row-bands
and at least one band holds at least 2 tokens. No condition on the raw
token-array size. -/
def spec_hasTableStructure (toks : List OcrToken) : Bool :=
  decide (2 ≤ (tokenRowKeys toks).length) &&
    (tokenRowKeys toks).any (fun k => 2 ≤ (rowTokens toks k).length)

/-- The spec's selection rule for C5: the results considered in the
CONFIGURED algorithm-list order, maximum score, first-encountered wins. -/
def spec_selectConfiguredOrder (algs : List String) (tr bb fz : AlgResult) :
    Option (String × AlgResult) :=
  pyMaxByScore (algs.filterMap (fun n =>
    if n = "text_repetition" then some (n, tr)
    else if n = "bbox_matching" then some (n, bb)
    else if n = "fuzzy_matching" then some (n, fz)
    else none))

/-- The spec's detect for C5: same sampling and algorithms, but selection
scanning in configured order. -/
def spec_detectConfiguredOrder (cfg : HFConfig) (doc : List Page) :
    Option (String × AlgResult) :=
  spec_selectConfiguredOrder cfg.algorithms
    (algTR (sampledPages cfg doc) cfg.threshold)
    (algBB (sampledPages cfg doc) cfg.threshold)
    (algFZ (sampledPages cfg doc) cfg.threshold)

/-- The spec's error rule for C6: a raising algorithm is excluded and the
selection proceeds over the maximum score of the remaining results. -/
def spec_selectExcludingFailures (algs : List String)
    (runs : String → Except Unit AlgResult) : Option (String × AlgResult) :=
  pyMaxByScore
    (["text_repetition", "bbox_matching", "fuzzy_matching"].filterMap (fun n =>
      if n ∈ algs then
        match runs n with
        | .ok r => some (n, r)
        | .error _ => none
      else none))

/-! ## Claims about the image classification engine -/

/-- C1: has_table_structure forces classification table, an OCR line count
of at least min_lines_for_table forces classification table, and no record
classified table or important is ever placed in the decorative
(deletion-candidate) list, for every configuration. -/
theorem c1_table_protection :
    (∀ (cfg : ImgConfig) (a : ℚ) (o : OcrResult),
        o.has_table_structure = true → classifyImage cfg a o = .table) ∧
    (∀ (cfg : ImgConfig) (a : ℚ) (o : OcrResult),
        cfg.min_lines_for_table ≤ o.line_count → classifyImage cfg a o = .table) ∧
    (∀ (cfg : ImgConfig) (imgs : List ImgOutcome) (r : ImageInfo),
        r ∈ (analyzeImages cfg imgs).decorative_images →
          r.classification = .decorative ∧ r.classification ≠ .table ∧
            r.classification ≠ .important) := by
  refine ⟨?_, ?_, ?_⟩
  · intro cfg a o h
    simp [classifyImage, h]
  · intro cfg a o h
    by_cases ht : o.has_table_structure = true <;> simp [classifyImage, ht, h]
  · intro cfg imgs r hr
    have h := (List.mem_filter.mp hr).2
    have h' : r.classification = .decorative := by simpa using h
    refine ⟨h', ?_, ?_⟩ <;> simp [h']

/-- C1 witness: concrete instances for each protected case. -/
theorem c1_table_protection_witness :
    classifyImage defaultImgConfig (1/100) ⟨"", 0, 0, true⟩ = .table ∧
    classifyImage defaultImgConfig (1/100) ⟨"abc", 3, 0, false⟩ = .table ∧
    ((⟨0, 7, .decorative, none⟩ : ImageInfo).classification = .decorative ∧
      (⟨0, 7, .decorative, none⟩ : ImageInfo).classification ≠ .table ∧
      (⟨0, 7, .decorative, none⟩ : ImageInfo).classification ≠ .important) :=
  ⟨c1_table_protection.1 defaultImgConfig (1/100) ⟨"", 0, 0, true⟩ rfl,
   c1_table_protection.2.1 defaultImgConfig (1/100) ⟨"abc", 3, 0, false⟩ (by decide),
   c1_table_protection.2.2 defaultImgConfig [.ok 0 7 (3/100) (.ok ⟨"", 0, 0, false⟩)]
     ⟨0, 7, .decorative, none⟩ (by
       norm_num [analyzeImages, imgRecord, ocrImage, classifyImage,
         List.filterMap_cons, List.filter_cons, defaultImgConfig])⟩

/-- Rule 6 of the cascade under the default configuration: no table
structure, zero lines, area below 0.05 classifies decorative. -/
theorem classify_default_small_no_text (a : ℚ) (o : OcrResult)
    (hts : o.has_table_structure = false) (hlc : o.line_count = 0)
    (ha : a < 1/20) : classifyImage defaultImgConfig a o = .decorative := by
  have h5 : ¬((1 : ℚ)/5 < a) := by
    intro h
    nlinarith
  have h10 : ¬((1 : ℚ)/10 < a) := by
    intro h
    nlinarith
  rw [classifyImage]
  rw [if_neg (by simp [hts]), if_neg (by simp [defaultImgConfig, hlc]),
    if_neg (by simp [hlc]), if_neg h5, if_neg h10,
    if_pos (by exact ⟨by simpa [defaultImgConfig] using ha, hlc⟩)]

/-- C2: _classify_image is exactly the spec's seven-rule first-match-wins
cascade; an image with no table structure, zero OCR lines and area below
the default 0.05 threshold classifies decorative; an image matching none
of the first six rules classifies important. -/
theorem c2_cascade_semantics :
    (∀ (cfg : ImgConfig) (a : ℚ) (o : OcrResult),
        classifyImage cfg a o = spec_classifyCascade cfg a o) ∧
    (∀ (a : ℚ) (o : OcrResult),
        o.has_table_structure = false → o.line_count = 0 → a < 1/20 →
          classifyImage defaultImgConfig a o = .decorative) ∧
    (∀ (cfg : ImgConfig) (a : ℚ) (o : OcrResult),
        o.has_table_structure = false →
        o.line_count < cfg.min_lines_for_table →
        ¬(0 < o.line_count ∧ 10 < o.text.length) →
        ¬((1 : ℚ)/5 < a) → ¬((1 : ℚ)/10 < a) →
        ¬(a < cfg.area_threshold ∧ o.line_count = 0) →
          classifyImage cfg a o = .important) := by
  refine ⟨?_, ?_, ?_⟩
  · intro cfg a o
    simp only [classifyImage, spec_classifyCascade, spec_imageRules, firstMatch,
      decide_eq_true_eq]
  · intro a o hts hlc ha
    exact classify_default_small_no_text a o hts hlc ha
  · intro cfg a o hts hlt h3 h4 h5 h6
    have h2 : ¬(cfg.min_lines_for_table ≤ o.line_count) := by omega
    simp [classifyImage, hts, h2, h3, h4, h5, h6]

/-- C2 witness: the concrete decorative scenario (0 lines, area 0.03) and
a concrete default-rule instance. -/
theorem c2_cascade_semantics_witness :
    classifyImage defaultImgConfig (3/100) ⟨"", 0, 0, false⟩ = .decorative ∧
    classifyImage defaultImgConfig (7/100) ⟨"", 1, 0, false⟩ = .important :=
  ⟨c2_cascade_semantics.2.1 (3/100) ⟨"", 0, 0, false⟩ rfl rfl (by norm_num),
   c2_cascade_semantics.2.2 defaultImgConfig (7/100) ⟨"", 1, 0, false⟩ rfl
     (by decide) (by decide) (by norm_num) (by norm_num)
     (by simp [defaultImgConfig])⟩

/-- C3 counterexample: four non-blank tokens forming a perfect 2-row,
2-column grid satisfy the spec's grouping criterion, yet
_detect_table_structure returns False because the token array holds fewer
than 6 entries. -/
theorem c3_counterexample :
    spec_hasTableStructure
        [⟨"a", 0, 0⟩, ⟨"b", 0, 50⟩, ⟨"c", 100, 0⟩, ⟨"d", 100, 50⟩] = true ∧
    detectTableStructure
        [⟨"a", 0, 0⟩, ⟨"b", 0, 50⟩, ⟨"c", 100, 0⟩, ⟨"d", 100, 50⟩] = false := by
  constructor <;> decide

/-- C3 amended: has_table_structure is true exactly when the token array
holds at least 6 entries (blank tokens included) AND the non-blank tokens
group into at least 2 tolerance-10 row-bands with at least one band of at
least 2 tokens; a 3-row, 2-column recognized block (6 tokens) yields true,
and any image with the table-structure flag classifies table regardless of
area. -/
theorem c3_table_structure_amended :
    (∀ toks : List OcrToken,
        detectTableStructure toks =
          (decide (6 ≤ toks.length) && spec_hasTableStructure toks)) ∧
    detectTableStructure
        [⟨"r1c1", 0, 0⟩, ⟨"r1c2", 0, 60⟩, ⟨"r2c1", 100, 0⟩,
         ⟨"r2c2", 100, 60⟩, ⟨"r3c1", 200, 0⟩, ⟨"r3c2", 200, 60⟩] = true ∧
    (∀ (cfg : ImgConfig) (a : ℚ) (t : String) (lc : ℕ) (conf : ℚ),
        classifyImage cfg a ⟨t, lc, conf, true⟩ = .table) := by
  refine ⟨?_, by decide, ?_⟩
  · intro toks
    simp only [detectTableStructure, spec_hasTableStructure]
    by_cases h6 : toks.length < 6
    · simp [h6, Nat.lt_iff_add_one_le.mp h6, Nat.not_le.mpr h6]
    · have h6' : 6 ≤ toks.length := Nat.not_lt.mp h6
      by_cases h2 : (tokenRowKeys toks).length < 2
      · simp [h6, h2, Nat.not_le.mpr h2]
      · simp [h6, h2, h6', Nat.not_lt.mp h2]
  · intro cfg a t lc conf
    simp [classifyImage]

/-- The outer-except path of analyze_images: a record classified important
with the recorded reason, counted, kept out of the decorative list, the
rest analyzed unchanged. -/
theorem c4_outer_failure_isolation (cfg : ImgConfig) (xs ys : List ImgOutcome)
    (p x : ℕ) :
    (analyzeImages cfg (xs ++ .failure p x :: ys)).total_images =
        xs.length + 1 + ys.length ∧
    (⟨p, x, .important, some "Error during analysis - kept for safety"⟩ : ImageInfo) ∈
        (analyzeImages cfg (xs ++ .failure p x :: ys)).important_images ∧
    (⟨p, x, .important, some "Error during analysis - kept for safety"⟩ : ImageInfo) ∉
        (analyzeImages cfg (xs ++ .failure p x :: ys)).decorative_images ∧
    (analyzeImages cfg (xs ++ .failure p x :: ys)).decorative_images =
        (analyzeImages cfg (xs ++ ys)).decorative_images := by
  refine ⟨?_, ?_, ?_, ?_⟩
  · simp [analyzeImages]
    omega
  · simp only [analyzeImages, List.filterMap_append, List.filterMap_cons,
      imgRecord, List.filter_append]
    refine List.mem_append_right _ ?_
    simp
  · intro h
    have h' := (List.mem_filter.mp h).2
    simp at h'
  · simp only [analyzeImages, List.filterMap_append, List.filterMap_cons,
      imgRecord, List.filter_append, List.filter_cons]
    simp

/-- C4 counterexample: an image of area 0.03 whose OCR call raises is
processed through _ocr_image's internal except, classifies decorative with
no recorded reason, lands in the deletion-candidate list, and is not
classified important - refuting the claim for OCR errors. -/
theorem c4_counterexample :
    (analyzeImages defaultImgConfig
        [.ok 0 7 (3/100) (.error ())]).decorative_images =
      [⟨0, 7, .decorative, none⟩] ∧
    (analyzeImages defaultImgConfig
        [.ok 0 7 (3/100) (.error ())]).important_images = [] ∧
    (⟨0, 7, .decorative, none⟩ : ImageInfo).reason = none := by
  have hc : classifyImage defaultImgConfig (3/100) (ocrImage (.error ())) =
      .decorative :=
    classify_default_small_no_text (3/100) ⟨"", 0, 0, false⟩ rfl rfl (by norm_num)
  refine ⟨?_, ?_, rfl⟩ <;>
    simp [analyzeImages, imgRecord, List.filterMap_cons, List.filter_cons, hc]

/-- C4 amended: only an exception reaching analyze_images' outer except
(bbox lookup or extraction failure) is classified important with the
recorded safety reason, counted in total_images, kept out of the
decorative list, with the remaining images analyzed as if it were absent;
an exception inside the OCR call is caught by _ocr_image, replaced by the
empty OCR result, and classified through the normal cascade with no
recorded reason - under the default configuration an OCR-failing image of
area below 0.05 classifies decorative and enters the deletion list. -/
theorem c4_failure_isolation_amended :
    (∀ (cfg : ImgConfig) (xs ys : List ImgOutcome) (p x : ℕ),
      (analyzeImages cfg (xs ++ .failure p x :: ys)).total_images =
          xs.length + 1 + ys.length ∧
      (⟨p, x, .important, some "Error during analysis - kept for safety"⟩ : ImageInfo) ∈
          (analyzeImages cfg (xs ++ .failure p x :: ys)).important_images ∧
      (⟨p, x, .important, some "Error during analysis - kept for safety"⟩ : ImageInfo) ∉
          (analyzeImages cfg (xs ++ .failure p x :: ys)).decorative_images ∧
      (analyzeImages cfg (xs ++ .failure p x :: ys)).decorative_images =
          (analyzeImages cfg (xs ++ ys)).decorative_images) ∧
    (∀ (cfg : ImgConfig) (p x : ℕ) (a : ℚ),
      imgRecord cfg (.ok p x a (.error ())) =
        some ⟨p, x, classifyImage cfg a ⟨"", 0, 0, false⟩, none⟩) ∧
    (∀ (p x : ℕ) (a : ℚ), a < 1/20 →
      (analyzeImages defaultImgConfig [.ok p x a (.error ())]).decorative_images =
        [⟨p, x, .decorative, none⟩]) := by
  refine ⟨?_, fun cfg p x a => rfl, ?_⟩
  · intro cfg xs ys p x
    exact c4_outer_failure_isolation cfg xs ys p x
  · intro p x a ha
    have hc : classifyImage defaultImgConfig a (ocrImage (.error ())) =
        .decorative :=
      classify_default_small_no_text a ⟨"", 0, 0, false⟩ rfl rfl ha
    simp [analyzeImages, imgRecord, List.filterMap_cons, List.filter_cons, hc]

/-- C4 witness: area 0.03 is below the default threshold and the
OCR-failing image's record enters the decorative list. -/
theorem c4_failure_isolation_amended_witness :
    ((3 : ℚ)/100 < 1/20) ∧
    (analyzeImages defaultImgConfig
        [.ok 1 9 (3/100) (.error ())]).decorative_images =
      [⟨1, 9, .decorative, none⟩] :=
  ⟨by norm_num, c4_failure_isolation_amended.2.2 1 9 (3/100) (by norm_num)⟩


/-- C10: with remove_decorative disabled, remove_decorative_images returns
0, never opens the input document, and writes no output file. -/
theorem c10_removal_disabled (cfg : ImgConfig) (d : List ImageInfo)
    (h : cfg.remove_decorative = false) :
    removeDecorativeImages cfg d =
      { removed := 0, openedInput := false, wroteOutput := false } := by
  simp [removeDecorativeImages, h]

/-- C10 witness: a disabled configuration with a nonempty decorative list. -/
theorem c10_removal_disabled_witness :
    (⟨1/20, 3, true, false⟩ : ImgConfig).remove_decorative = false ∧
    removeDecorativeImages ⟨1/20, 3, true, false⟩ [⟨0, 1, .decorative, none⟩] =
      { removed := 0, openedInput := false, wroteOutput := false } :=
  ⟨rfl, c10_removal_disabled ⟨1/20, 3, true, false⟩ [⟨0, 1, .decorative, none⟩] rfl⟩

/-! ## Claims about detection-algorithm selection -/

/-- find? is determined by the predicate's values on the list members. -/
theorem find?_congrOn {α : Type} (p q : α → Bool) :
    ∀ l : List α, (∀ a ∈ l, p a = q a) → l.find? p = l.find? q := by
  intro l
  induction l with
  | nil => intro _; rfl
  | cons x xs ih =>
    intro h
    have hx : p x = q x := h x (by simp)
    by_cases hpx : p x = true
    · rw [List.find?_cons_of_pos _ hpx, List.find?_cons_of_pos _ (hx ▸ hpx)]
    · have hqx : ¬(q x = true) := by rw [← hx]; exact hpx
      rw [List.find?_cons_of_neg _ hpx, List.find?_cons_of_neg _ hqx]
      exact ih (fun a ha => h a (by simp [ha]))

/-- The Python max fold (keep first, replace on strictly greater) returns
the first list element whose score is greater or equal to every score. -/
theorem foldl_pickMax_eq_find? {α : Type} (f : α → ℚ) :
    ∀ (xs : List α) (x : α),
      (x :: xs).find? (fun e => (x :: xs).all (fun y => decide (f y ≤ f e))) =
        some (xs.foldl (fun b y => if f b < f y then y else b) x) := by
  intro xs
  induction xs with
  | nil =>
    intro x
    simp [List.find?]
  | cons y ys ih =>
    intro x
    by_cases h : f x < f y
    · have hstep : (y :: ys).foldl (fun b z => if f b < f z then z else b) x =
          ys.foldl (fun b z => if f b < f z then z else b) y := by
        simp [List.foldl_cons, h]
      rw [hstep, ← ih y]
      have hPx : ((x :: y :: ys).all (fun z => decide (f z ≤ f x))) = false :=
        List.all_eq_false.mpr ⟨y, by simp, by simp [not_le.mpr h]⟩
      rw [@List.find?_cons_of_neg α
        (fun e => (x :: y :: ys).all (fun w => decide (f w ≤ f e))) x (y :: ys)
        (by simpa using hPx)]
      apply find?_congrOn
      intro a ha
      by_cases hP : ((y :: ys).all (fun z => decide (f z ≤ f a))) = true
      · have hya : f y ≤ f a := by
          simpa using List.all_eq_true.mp hP y (by simp)
        have hxa : f x ≤ f a := le_trans (le_of_lt h) hya
        simp only [List.all_cons] at hP ⊢
        simp [hxa, hP]
      · have hP' : ((y :: ys).all (fun z => decide (f z ≤ f a))) = false :=
          Bool.eq_false_iff.mpr hP
        simp only [List.all_cons] at hP' ⊢
        simp only [Bool.and_eq_false_iff] at hP'
        rcases hP' with h1 | h2
        · simp [h1]
        · simp [h2]
    · have hyx : f y ≤ f x := not_lt.mp h
      have hstep : (y :: ys).foldl (fun b z => if f b < f z then z else b) x =
          ys.foldl (fun b z => if f b < f z then z else b) x := by
        simp [List.foldl_cons, h]
      rw [hstep]
      by_cases hQx : ((x :: ys).all (fun z => decide (f z ≤ f x))) = true
      · have hPxt : ((x :: y :: ys).all (fun z => decide (f z ≤ f x))) = true := by
          rw [List.all_eq_true]
          intro z hz
          rcases List.mem_cons.mp hz with h1 | h1
          · simp [h1]
          · rcases List.mem_cons.mp h1 with h2 | h2
            · simp [h2, hyx]
            · simpa using List.all_eq_true.mp hQx z (by simp [h2])
        rw [@List.find?_cons_of_pos α
          (fun e => (x :: y :: ys).all (fun w => decide (f w ≤ f e))) x (y :: ys)
          (by simpa using hPxt)]
        calc some x
            = List.find? (fun e => (x :: ys).all (fun w => decide (f w ≤ f e)))
                (x :: ys) :=
              (@List.find?_cons_of_pos α
                (fun e => (x :: ys).all (fun w => decide (f w ≤ f e))) x ys
                (by simpa using hQx)).symm
          _ = some (ys.foldl (fun b z => if f b < f z then z else b) x) := ih x
      · have hQx' : ((x :: ys).all (fun z => decide (f z ≤ f x))) = false :=
          Bool.eq_false_iff.mpr hQx
        rcases List.all_eq_false.mp hQx' with ⟨z, hz, hzf⟩
        have hxz : f x < f z := by simpa using hzf
        have hPx : ((x :: y :: ys).all (fun w => decide (f w ≤ f x))) = false := by
          refine List.all_eq_false.mpr ⟨z, ?_, hzf⟩
          rcases List.mem_cons.mp hz with h1 | h1
          · simp [h1]
          · simp [h1]
        have hPy : ((x :: y :: ys).all (fun w => decide (f w ≤ f y))) = false := by
          refine List.all_eq_false.mpr ⟨z, ?_, ?_⟩
          · rcases List.mem_cons.mp hz with h1 | h1
            · simp [h1]
            · simp [h1]
          · simp [not_le.mpr (lt_of_le_of_lt hyx hxz)]
        rw [@List.find?_cons_of_neg α
          (fun e => (x :: y :: ys).all (fun w => decide (f w ≤ f e))) x (y :: ys)
          (by simpa using hPx)]
        rw [@List.find?_cons_of_neg α
          (fun e => (x :: y :: ys).all (fun w => decide (f w ≤ f e))) y ys
          (by simpa using hPy)]
        have ihx := ih x
        rw [@List.find?_cons_of_neg α
          (fun e => (x :: ys).all (fun w => decide (f w ≤ f e))) x ys
          (by simpa using hQx')] at ihx
        rw [← ihx]
        apply find?_congrOn
        intro a ha
        simp only [List.all_cons]
        by_cases hxa : f x ≤ f a
        · simp [hxa, le_trans hyx hxa]
        · simp [hxa]

/-- The spec's selection rule, literally: the first entry of the results
whose consistency_score is the numeric maximum over all entries. -/
def spec_firstMaxByScore (l : List (String × AlgResult)) :
    Option (String × AlgResult) :=
  l.find? (fun e => l.all
    (fun y => decide (y.2.consistency_score ≤ e.2.consistency_score)))

theorem pyMaxByScore_eq_spec_firstMax (l : List (String × AlgResult)) :
    pyMaxByScore l = spec_firstMaxByScore l := by
  cases l with
  | nil => rfl
  | cons x xs =>
    exact (foldl_pickMax_eq_find?
      (fun e : String × AlgResult => e.2.consistency_score) xs x).symm

/-- C5 counterexample: with configured order [fuzzy_matching,
text_repetition] and an empty document (all scores tie at 0), detect()
selects text_repetition - the first algorithm in the fixed insertion
order of the results dict - while the claim's configured-order tie-break
names fuzzy_matching. -/
theorem c5_counterexample :
    (detect ⟨17/20, 50, ["fuzzy_matching", "text_repetition"]⟩ []).map Prod.fst =
        some "text_repetition" ∧
    (spec_detectConfiguredOrder ⟨17/20, 50, ["fuzzy_matching", "text_repetition"]⟩
        []).map Prod.fst = some "fuzzy_matching" ∧
    ("text_repetition" : String) ≠ "fuzzy_matching" := by
  refine ⟨by decide, by decide, by decide⟩

/-- C5 amended: detect() picks the result with the maximal
consistency_score, ties resolving to the first entry in the fixed
declaration order text_repetition, bbox_matching, fuzzy_matching (the
insertion order of the results dict), not the configured list order; and
selection is a function of the sampled block data alone. -/
theorem c5_selection_amended :
    (∀ (cfg : HFConfig) (doc : List Page),
        detect cfg doc =
          spec_firstMaxByScore
            (configuredResults cfg.algorithms
              (algTR (sampledPages cfg doc) cfg.threshold)
              (algBB (sampledPages cfg doc) cfg.threshold)
              (algFZ (sampledPages cfg doc) cfg.threshold))) ∧
    (∀ (cfg : HFConfig) (doc1 doc2 : List Page),
        sampledPages cfg doc1 = sampledPages cfg doc2 →
          detect cfg doc1 = detect cfg doc2) := by
  constructor
  · intro cfg doc
    exact pyMaxByScore_eq_spec_firstMax _
  · intro cfg doc1 doc2 h
    simp only [detect, h]

/-- C5 witness: the amended determinism conjunct at a concrete input. -/
theorem c5_selection_amended_witness :
    sampledPages defaultHFConfig [] = sampledPages defaultHFConfig [] ∧
    detect defaultHFConfig [] = detect defaultHFConfig [] :=
  ⟨rfl, c5_selection_amended.2 defaultHFConfig [] [] rfl⟩

/-- C6 counterexample: text_repetition raises while bbox_matching and
fuzzy_matching succeed with score 1. The claim's rule selects the best
remaining result (score 1 with headers), but the code propagates the
exception out of detect() and the caller records empty sets with score 0
and a failed status. -/
theorem c6_counterexample :
    hfDetectionStep ["text_repetition", "bbox_matching", "fuzzy_matching"]
        (fun n => if n = "text_repetition" then .error () else .ok ⟨["x"], ["y"], 1⟩) =
      { headers := [], footers := [], consistency_score := 0,
        failed := true, documentAborted := false } ∧
    (spec_selectExcludingFailures ["text_repetition", "bbox_matching", "fuzzy_matching"]
        (fun n => if n = "text_repetition" then .error () else .ok ⟨["x"], ["y"], 1⟩)).map
        (fun e => e.2.headers) = some ["x"] ∧
    ([] : List String) ≠ ["x"] := by
  refine ⟨by decide, by decide, by decide⟩

/-- In the Except monad, a fold that hits an always-failing step fails. -/
theorem foldlM_error_of_mem {β : Type}
    (step : List β → String → Except Unit (List β)) (n : String)
    (hstep : ∀ acc, step acc n = .error ()) :
    ∀ (l : List String) (init : List β), n ∈ l →
      l.foldlM step init = .error () := by
  intro l
  induction l with
  | nil => intro init h; simp at h
  | cons a as ih =>
    intro init h
    rcases List.mem_cons.mp h with h1 | h1
    · subst h1
      rw [List.foldlM_cons, hstep init]
      rfl
    · cases hsa : step init a with
      | error e =>
        rw [List.foldlM_cons, hsa]
        rfl
      | ok r =>
        rw [List.foldlM_cons, hsa]
        show as.foldlM step r = .error ()
        exact ih r h1

/-- C6 amended: a raising configured algorithm is NOT excluded: the
exception propagates out of detect(), and the caller (process_pdf_file
STEP 2) records empty header/footer sets with consistency score 0 and a
failed status; the document's processing continues. -/
theorem c6_failure_handling_amended
    (algs : List String) (runs : String → Except Unit AlgResult)
    (h : ∃ n ∈ ["text_repetition", "bbox_matching", "fuzzy_matching"],
        n ∈ algs ∧ runs n = .error ()) :
    hfDetectionStep algs runs =
      { headers := [], footers := [], consistency_score := 0,
        failed := true, documentAborted := false } := by
  rcases h with ⟨n, hcanon, hmem, herr⟩
  have hstep : ∀ acc : List (String × AlgResult),
      (if n ∈ algs then (runs n).map (fun r => acc ++ [(n, r)])
        else pure acc) = .error () := by
    intro acc
    simp [hmem, herr, Except.map]
  have hfold :
      (["text_repetition", "bbox_matching", "fuzzy_matching"].foldlM
        (fun acc name =>
          if name ∈ algs then (runs name).map (fun r => acc ++ [(name, r)])
          else pure acc) ([] : List (String × AlgResult))) = .error () :=
    foldlM_error_of_mem _ n hstep _ _ hcanon
  simp only [hfDetectionStep, detectRun, hfold]

/-- C6 witness: every algorithm raising yields the empty failed record. -/
theorem c6_failure_handling_amended_witness :
    (∃ n ∈ ["text_repetition", "bbox_matching", "fuzzy_matching"],
        n ∈ ["text_repetition", "bbox_matching", "fuzzy_matching"] ∧
          (fun _ : String => (.error () : Except Unit AlgResult)) n = .error ()) ∧
    hfDetectionStep ["text_repetition", "bbox_matching", "fuzzy_matching"]
        (fun _ => .error ()) =
      { headers := [], footers := [], consistency_score := 0,
        failed := true, documentAborted := false } :=
  ⟨⟨"text_repetition", by decide, by decide, rfl⟩,
   c6_failure_handling_amended _ _ ⟨"text_repetition", by decide, by decide, rfl⟩⟩

/-! ## C7: consistency-score range -/

theorem foldr_max_le (n : ℕ) :
    ∀ l : List ℕ, (∀ x ∈ l, x ≤ n) → l.foldr max 0 ≤ n := by
  intro l
  induction l with
  | nil => intro _; simp
  | cons x xs ih =>
    intro h
    simp only [List.foldr_cons]
    exact max_le (h x (by simp)) (ih (fun y hy => h y (by simp [hy])))

theorem maxMult_le_length (occ : List String) : maxMult occ ≤ occ.length := by
  apply foldr_max_le
  intro x hx
  rcases List.mem_map.mp hx with ⟨t, _, rfl⟩
  exact List.count_le_length t occ

theorem length_filterMap_le_filter {α β : Type} (f : α → Option β) (p : α → Bool)
    (h : ∀ a, (f a).isSome = true → p a = true) :
    ∀ l : List α, (l.filterMap f).length ≤ (l.filter p).length := by
  intro l
  induction l with
  | nil => simp
  | cons a as ih =>
    cases hfa : f a with
    | none =>
      simp only [List.filterMap_cons, hfa]
      cases hpa : p a
      · simp only [List.filter_cons, hpa, Bool.false_eq_true, if_false]
        exact ih
      · simp only [List.filter_cons, hpa, if_true, List.length_cons]
        exact le_trans ih (Nat.le_succ _)
    | some b =>
      have hpa : p a = true := h a (by simp [hfa])
      simp [List.filterMap_cons, hfa, List.filter_cons, hpa, Nat.succ_le_succ, ih]

theorem stableInsert_perm {α : Type} (le : α → α → Bool) (x : α) :
    ∀ l : List α, (stableInsert le x l).Perm (x :: l) := by
  intro l
  induction l with
  | nil => simp [stableInsert]
  | cons y ys ih =>
    simp only [stableInsert]
    by_cases h : le y x = true
    · simp only [h, if_true]
      exact (ih.cons y).trans (List.Perm.swap x y ys)
    · simp [h]

theorem stableSort_perm_aux {α : Type} (le : α → α → Bool) :
    ∀ (l acc : List α),
      (l.foldl (fun a x => stableInsert le x a) acc).Perm (acc ++ l) := by
  intro l
  induction l with
  | nil => intro acc; simp
  | cons x xs ih =>
    intro acc
    simp only [List.foldl_cons]
    refine (ih (stableInsert le x acc)).trans ?_
    have h1 : (stableInsert le x acc ++ xs).Perm ((x :: acc) ++ xs) :=
      (stableInsert_perm le x acc).append_right xs
    refine h1.trans ?_
    simpa using List.perm_middle.symm

theorem stableSort_perm {α : Type} (le : α → α → Bool) (l : List α) :
    (stableSort le l).Perm l := by
  simpa using stableSort_perm_aux le l []

/-- Pages with at most one block of stripped text length at least 3: under
this restriction every candidate multiset gains at most one entry per
sampled page. -/
def fewTextBlocks (pages : List Page) : Prop :=
  ∀ pg ∈ pages,
    (pg.blocks.filter (fun b => decide (3 ≤ (pyStrip b.text).length))).length ≤ 1

theorem flatMap_length_le_of_page_le {α : Type} (f : Page → List α)
    (pages : List Page) (h : ∀ pg ∈ pages, (f pg).length ≤ 1) :
    (pages.flatMap f).length ≤ pages.length := by
  induction pages with
  | nil => simp
  | cons pg pgs ih =>
    simp only [List.flatMap_cons, List.length_append, List.length_cons]
    have h1 := h pg (by simp)
    have h2 := ih (fun q hq => h q (by simp [hq]))
    omega

theorem trHeaderOcc_length_le (pages : List Page) (h : fewTextBlocks pages) :
    (trHeaderOcc pages).length ≤ pages.length := by
  apply flatMap_length_le_of_page_le
  intro pg hpg
  by_cases he : pg.blocks.isEmpty
  · simp [he]
  · simp only [he, Bool.false_eq_true, if_false]
    calc (((sortBlocksByY pg.blocks).take 2).filterMap trQualify).length
        ≤ ((sortBlocksByY pg.blocks).filterMap trQualify).length :=
          ((List.take_sublist 2 _).filterMap trQualify).length_le
      _ = (pg.blocks.filterMap trQualify).length :=
          ((stableSort_perm _ pg.blocks).filterMap trQualify).length_eq
      _ ≤ (pg.blocks.filter (fun b => decide (3 ≤ (pyStrip b.text).length))).length := by
          apply length_filterMap_le_filter
          intro b hb
          simp only [trQualify] at hb
          split at hb
          · next hlen => simpa using le_of_lt hlen
          · simp at hb
      _ ≤ 1 := h pg hpg

theorem trFooterOcc_length_le (pages : List Page) (h : fewTextBlocks pages) :
    (trFooterOcc pages).length ≤ pages.length := by
  apply flatMap_length_le_of_page_le
  intro pg hpg
  by_cases he : pg.blocks.isEmpty
  · simp [he]
  · simp only [he, Bool.false_eq_true, if_false]
    calc (((sortBlocksByY pg.blocks).drop ((sortBlocksByY pg.blocks).length - 2)).filterMap
            trQualify).length
        ≤ ((sortBlocksByY pg.blocks).filterMap trQualify).length :=
          ((List.drop_sublist _ _).filterMap trQualify).length_le
      _ = (pg.blocks.filterMap trQualify).length :=
          ((stableSort_perm _ pg.blocks).filterMap trQualify).length_eq
      _ ≤ (pg.blocks.filter (fun b => decide (3 ≤ (pyStrip b.text).length))).length := by
          apply length_filterMap_le_filter
          intro b hb
          simp only [trQualify] at hb
          split at hb
          · next hlen => simpa using le_of_lt hlen
          · simp at hb
      _ ≤ 1 := h pg hpg

theorem scorePair_nonneg (mh mf total : ℕ) (hne fne : Bool) :
    0 ≤ scorePair mh mf hne fne total := by
  cases hne <;> cases fne <;> simp [scorePair] <;> positivity

theorem scorePair_le_one (mh mf total : ℕ) (hne fne : Bool)
    (h1 : hne = true → mh ≤ total ∧ 0 < total)
    (h2 : fne = true → mf ≤ total ∧ 0 < total) :
    scorePair mh mf hne fne total ≤ 1 := by
  cases hne <;> cases fne
  · simp [scorePair]
  · rcases h2 rfl with ⟨hm2, ht⟩
    have d2 : (mf : ℚ) / total ≤ 1 := by
      rw [div_le_one (by exact_mod_cast ht)]
      exact_mod_cast hm2
    simp only [scorePair, Bool.false_eq_true, if_false, Bool.false_or, if_true]
    linarith
  · rcases h1 rfl with ⟨hm1, ht⟩
    have d1 : (mh : ℚ) / total ≤ 1 := by
      rw [div_le_one (by exact_mod_cast ht)]
      exact_mod_cast hm1
    simp only [scorePair, Bool.false_eq_true, if_false, Bool.or_false, if_true]
    linarith
  · rcases h1 rfl with ⟨hm1, ht⟩
    rcases h2 rfl with ⟨hm2, _⟩
    have d1 : (mh : ℚ) / total ≤ 1 := by
      rw [div_le_one (by exact_mod_cast ht)]
      exact_mod_cast hm1
    have d2 : (mf : ℚ) / total ≤ 1 := by
      rw [div_le_one (by exact_mod_cast ht)]
      exact_mod_cast hm2
    simp only [scorePair, if_true, Bool.or_self]
    linarith

theorem ne_nil_length_pos {α : Type} {l : List α} (h : l.isEmpty = false) :
    0 < l.length := by
  cases l with
  | nil => simp at h
  | cons x xs => simp

theorem algTR_score_range (pages : List Page) (t : ℚ) :
    0 ≤ (algTR pages t).consistency_score ∧
      (fewTextBlocks pages → (algTR pages t).consistency_score ≤ 1) := by
  constructor
  · exact scorePair_nonneg _ _ _ _ _
  · intro h
    apply scorePair_le_one
    · intro hne
      have hlen := trHeaderOcc_length_le pages h
      have hpos : 0 < (trHeaderOcc pages).length :=
        ne_nil_length_pos (by simpa using hne)
      exact ⟨le_trans (maxMult_le_length _) hlen, lt_of_lt_of_le hpos hlen⟩
    · intro hne
      have hlen := trFooterOcc_length_le pages h
      have hpos : 0 < (trFooterOcc pages).length :=
        ne_nil_length_pos (by simpa using hne)
      exact ⟨le_trans (maxMult_le_length _) hlen, lt_of_lt_of_le hpos hlen⟩

theorem bbMaxMatch_le_length (entries : List ((ℤ × ℤ) × String)) :
    bbMaxMatch entries ≤ entries.length := by
  apply foldr_max_le
  intro x hx
  rcases List.mem_map.mp hx with ⟨k, _, rfl⟩
  exact le_trans (List.length_filterMap_le _ _) (by simp)

theorem bbQualify_some_len {b : Block} {t : String} (h : bbQualify b = some t) :
    decide (3 ≤ (pyStrip b.text).length) = true := by
  simp only [bbQualify] at h
  split at h
  · next hlen => simpa using hlen
  · simp at h

theorem bbHeaderEntries_length_le (pages : List Page) (h : fewTextBlocks pages) :
    (bbHeaderEntries pages).length ≤ pages.length := by
  apply flatMap_length_le_of_page_le
  intro pg hpg
  by_cases he : pg.blocks.isEmpty
  · simp [he]
  · simp only [he, Bool.false_eq_true, if_false]
    calc (pg.blocks.filterMap (fun b =>
            (bbQualify b).bind (fun t =>
              if b.y0 < pg.height * (1/10) then some (posKey b, t) else none))).length
        ≤ (pg.blocks.filter (fun b => decide (3 ≤ (pyStrip b.text).length))).length := by
          apply length_filterMap_le_filter
          intro b hb
          cases hq : bbQualify b with
          | none => simp [hq] at hb
          | some t => exact bbQualify_some_len hq
      _ ≤ 1 := h pg hpg

theorem bbFooterEntries_length_le (pages : List Page) (h : fewTextBlocks pages) :
    (bbFooterEntries pages).length ≤ pages.length := by
  apply flatMap_length_le_of_page_le
  intro pg hpg
  by_cases he : pg.blocks.isEmpty
  · simp [he]
  · simp only [he, Bool.false_eq_true, if_false]
    calc (pg.blocks.filterMap (fun b =>
            (bbQualify b).bind (fun t =>
              if b.y0 < pg.height * (1/10) then none
              else if pg.height * (9/10) < b.y0 then some (posKey b, t) else none))).length
        ≤ (pg.blocks.filter (fun b => decide (3 ≤ (pyStrip b.text).length))).length := by
          apply length_filterMap_le_filter
          intro b hb
          cases hq : bbQualify b with
          | none => simp [hq] at hb
          | some t => exact bbQualify_some_len hq
      _ ≤ 1 := h pg hpg

theorem algBB_score_range (pages : List Page) (t : ℚ) :
    0 ≤ (algBB pages t).consistency_score ∧
      (fewTextBlocks pages → (algBB pages t).consistency_score ≤ 1) := by
  constructor
  · exact scorePair_nonneg _ _ _ _ _
  · intro h
    apply scorePair_le_one
    · intro hne
      have hlen := bbHeaderEntries_length_le pages h
      have hpos : 0 < (bbHeaderEntries pages).length :=
        ne_nil_length_pos (by simpa using hne)
      exact ⟨le_trans (bbMaxMatch_le_length _) hlen, lt_of_lt_of_le hpos hlen⟩
    · intro hne
      have hlen := bbFooterEntries_length_le pages h
      have hpos : 0 < (bbFooterEntries pages).length :=
        ne_nil_length_pos (by simpa using hne)
      exact ⟨le_trans (bbMaxMatch_le_length _) hlen, lt_of_lt_of_le hpos hlen⟩

theorem addToFuzzyGroup_bound (n : ℕ) :
    ∀ (gs : List FuzzyGroup) (p e : String),
      (∀ g ∈ gs, g.examples.length ≤ n) →
      ∀ g ∈ addToFuzzyGroup gs p e, g.examples.length ≤ n + 1 := by
  intro gs
  induction gs with
  | nil =>
    intro p e _ g hg
    simp only [addToFuzzyGroup, List.mem_singleton] at hg
    subst hg
    simp
  | cons g0 gs ih =>
    intro p e h g hg
    simp only [addToFuzzyGroup] at hg
    split at hg
    · rcases List.mem_cons.mp hg with h1 | h1
      · subst h1
        simp only [List.length_append, List.length_singleton]
        exact Nat.add_le_add_right (h g0 (by simp)) 1
      · exact le_trans (h g (by simp [h1])) (Nat.le_succ n)
    · rcases List.mem_cons.mp hg with h1 | h1
      · subst h1
        exact le_trans (h g (by simp)) (Nat.le_succ n)
      · exact ih p e (fun g' hg' => h g' (by simp [hg'])) g h1

theorem foldl_addToFuzzyGroup_bound :
    ∀ (stream : List (String × String)) (gs : List FuzzyGroup) (n : ℕ),
      (∀ g ∈ gs, g.examples.length ≤ n) →
      ∀ g ∈ stream.foldl (fun a e => addToFuzzyGroup a e.1 e.2) gs,
        g.examples.length ≤ n + stream.length := by
  intro stream
  induction stream with
  | nil =>
    intro gs n h g hg
    simpa using h g hg
  | cons e es ih =>
    intro gs n h g hg
    simp only [List.foldl_cons] at hg
    have := ih (addToFuzzyGroup gs e.1 e.2) (n + 1)
      (addToFuzzyGroup_bound n gs e.1 e.2 h) g hg
    simpa [Nat.add_assoc, Nat.add_comm 1 es.length] using this

theorem buildGroups_example_bound (stream : List (String × String)) :
    ∀ g ∈ buildGroups stream, g.examples.length ≤ stream.length := by
  intro g hg
  simpa using foldl_addToFuzzyGroup_bound stream [] 0 (by simp) g hg

theorem fzMaxSize_le (stream : List (String × String)) :
    fzMaxSize (buildGroups stream) ≤ stream.length := by
  apply foldr_max_le
  intro x hx
  rcases List.mem_map.mp hx with ⟨g, hg, rfl⟩
  exact buildGroups_example_bound stream g hg

theorem fzHeaderStream_length_le (pages : List Page) (h : fewTextBlocks pages) :
    (fzHeaderStream pages).length ≤ pages.length := by
  apply flatMap_length_le_of_page_le
  intro pg hpg
  by_cases he : pg.blocks.isEmpty
  · simp [he]
  · simp only [he, Bool.false_eq_true, if_false]
    calc ((sortBlocksByY pg.blocks).filterMap (fun b =>
            (bbQualify b).bind (fun t =>
              if b.y0 < pg.height * (1/10) then some (normDigits t, t) else none))).length
        ≤ ((sortBlocksByY pg.blocks).filter
            (fun b => decide (3 ≤ (pyStrip b.text).length))).length := by
          apply length_filterMap_le_filter
          intro b hb
          cases hq : bbQualify b with
          | none => simp [hq] at hb
          | some t => exact bbQualify_some_len hq
      _ = (pg.blocks.filter (fun b => decide (3 ≤ (pyStrip b.text).length))).length :=
          ((stableSort_perm _ pg.blocks).filter _).length_eq
      _ ≤ 1 := h pg hpg

theorem fzFooterStream_length_le (pages : List Page) (h : fewTextBlocks pages) :
    (fzFooterStream pages).length ≤ pages.length := by
  apply flatMap_length_le_of_page_le
  intro pg hpg
  by_cases he : pg.blocks.isEmpty
  · simp [he]
  · simp only [he, Bool.false_eq_true, if_false]
    calc ((sortBlocksByY pg.blocks).filterMap (fun b =>
            (bbQualify b).bind (fun t =>
              if b.y0 < pg.height * (1/10) then none
              else if pg.height * (9/10) < b.y0 then some (normDigits t, t) else none))).length
        ≤ ((sortBlocksByY pg.blocks).filter
            (fun b => decide (3 ≤ (pyStrip b.text).length))).length := by
          apply length_filterMap_le_filter
          intro b hb
          cases hq : bbQualify b with
          | none => simp [hq] at hb
          | some t => exact bbQualify_some_len hq
      _ = (pg.blocks.filter (fun b => decide (3 ≤ (pyStrip b.text).length))).length :=
          ((stableSort_perm _ pg.blocks).filter _).length_eq
      _ ≤ 1 := h pg hpg

theorem buildGroups_ne_nil {stream : List (String × String)}
    (h : (buildGroups stream).isEmpty = false) : 0 < stream.length := by
  cases stream with
  | nil => simp [buildGroups] at h
  | cons e es => simp

theorem algFZ_score_range (pages : List Page) (t : ℚ) :
    0 ≤ (algFZ pages t).consistency_score ∧
      (fewTextBlocks pages → (algFZ pages t).consistency_score ≤ 1) := by
  constructor
  · exact scorePair_nonneg _ _ _ _ _
  · intro h
    apply scorePair_le_one
    · intro hne
      have hlen := fzHeaderStream_length_le pages h
      have hpos : 0 < (fzHeaderStream pages).length :=
        buildGroups_ne_nil (by simpa using hne)
      exact ⟨le_trans (fzMaxSize_le _) hlen, lt_of_lt_of_le hpos hlen⟩
    · intro hne
      have hlen := fzFooterStream_length_le pages h
      have hpos : 0 < (fzFooterStream pages).length :=
        buildGroups_ne_nil (by simpa using hne)
      exact ⟨le_trans (fzMaxSize_le _) hlen, lt_of_lt_of_le hpos hlen⟩

/-- C7 counterexample: a sampled page whose two top (and bottom) blocks
carry the same text "aaaa" makes the text_repetition occurrence count 2
against 1 sampled page, so its consistency_score is 2, outside [0,1].
The page is exactly what detect() samples for a 1-page document. -/
theorem c7_counterexample :
    sampledPages defaultHFConfig
        [⟨100, [⟨0, 0, 10, 10, "aaaa"⟩, ⟨0, 0, 10, 10, "aaaa"⟩]⟩] =
      [⟨100, [⟨0, 0, 10, 10, "aaaa"⟩, ⟨0, 0, 10, 10, "aaaa"⟩]⟩] ∧
    ¬((algTR [⟨100, [⟨0, 0, 10, 10, "aaaa"⟩, ⟨0, 0, 10, 10, "aaaa"⟩]⟩]
        (17/20)).consistency_score ≤ 1) := by
  constructor
  · rfl
  · have h : (algTR [⟨100, [⟨0, 0, 10, 10, "aaaa"⟩, ⟨0, 0, 10, 10, "aaaa"⟩]⟩]
        (17/20)).consistency_score = scorePair 2 2 true true 1 := rfl
    rw [h]
    simp only [scorePair, if_true, Bool.or_self]
    norm_num

/-- C7 amended: every consistency_score is nonnegative, and lies in [0,1]
whenever each sampled page has at most one block of stripped text length
at least 3; with repeated candidate texts on one page the score can
exceed 1 (see the counterexample). -/
theorem c7_score_range_amended (pages : List Page) (t : ℚ) :
    (0 ≤ (algTR pages t).consistency_score ∧
      0 ≤ (algBB pages t).consistency_score ∧
      0 ≤ (algFZ pages t).consistency_score) ∧
    (fewTextBlocks pages →
      (algTR pages t).consistency_score ≤ 1 ∧
        (algBB pages t).consistency_score ≤ 1 ∧
        (algFZ pages t).consistency_score ≤ 1) :=
  ⟨⟨(algTR_score_range pages t).1, (algBB_score_range pages t).1,
    (algFZ_score_range pages t).1⟩,
   fun h => ⟨(algTR_score_range pages t).2 h, (algBB_score_range pages t).2 h,
    (algFZ_score_range pages t).2 h⟩⟩

/-- C7 witness: a one-page sample with a single text block satisfies the
restriction, and the amended bounds follow. -/
theorem c7_score_range_amended_witness :
    fewTextBlocks [⟨100, [⟨0, 0, 10, 10, "abcd"⟩]⟩] ∧
    ((algTR [⟨100, [⟨0, 0, 10, 10, "abcd"⟩]⟩] (17/20)).consistency_score ≤ 1 ∧
      (algBB [⟨100, [⟨0, 0, 10, 10, "abcd"⟩]⟩] (17/20)).consistency_score ≤ 1 ∧
      (algFZ [⟨100, [⟨0, 0, 10, 10, "abcd"⟩]⟩] (17/20)).consistency_score ≤ 1) :=
  ⟨by
     intro pg hpg
     rw [List.mem_singleton] at hpg
     subst hpg
     decide,
   (c7_score_range_amended [⟨100, [⟨0, 0, 10, 10, "abcd"⟩]⟩] (17/20)).2 (by
     intro pg hpg
     rw [List.mem_singleton] at hpg
     subst hpg
     decide)⟩

/-! ## C8: threshold monotonicity -/

theorem filter_sublist_of_imp {α : Type} (p q : α → Bool) :
    ∀ l : List α, (∀ a ∈ l, p a = true → q a = true) →
      (l.filter p).Sublist (l.filter q) := by
  intro l
  induction l with
  | nil => intro _; simp
  | cons a as ih =>
    intro h
    simp only [List.filter_cons]
    by_cases hpa : p a = true
    · have hqa := h a (by simp) hpa
      simp only [hpa, hqa, if_true]
      exact (ih (fun b hb => h b (by simp [hb]))).cons₂ a
    · have hpa' : p a = false := Bool.eq_false_iff.mpr hpa
      simp only [hpa', Bool.false_eq_true, if_false]
      cases hqa : q a
      · simp only [Bool.false_eq_true, if_false]
        exact ih (fun b hb => h b (by simp [hb]))
      · simp only [if_true]
        exact (ih (fun b hb => h b (by simp [hb]))).cons a

theorem filterMap_sublist_of_imp {α β : Type} (f g : α → Option β) :
    ∀ l : List α, (∀ a ∈ l, ∀ b, f a = some b → g a = some b) →
      (l.filterMap f).Sublist (l.filterMap g) := by
  intro l
  induction l with
  | nil => intro _; simp
  | cons a as ih =>
    intro h
    simp only [List.filterMap_cons]
    cases hfa : f a with
    | some b =>
      have hga := h a (by simp) b hfa
      simp only [hga]
      exact (ih (fun x hx => h x (by simp [hx]))).cons₂ b
    | none =>
      cases hga : g a with
      | none => exact ih (fun x hx => h x (by simp [hx]))
      | some b => exact (ih (fun x hx => h x (by simp [hx]))).cons b

theorem mem_firstDedupAux {α : Type} [DecidableEq α] (a : α) :
    ∀ (l seen : List α), a ∈ firstDedupAux l seen ↔ a ∈ l ∧ a ∉ seen := by
  intro l
  induction l with
  | nil => intro seen; simp [firstDedupAux]
  | cons x xs ih =>
    intro seen
    simp only [firstDedupAux]
    by_cases hx : x ∈ seen
    · rw [if_pos hx, ih]
      constructor
      · rintro ⟨h1, h2⟩
        exact ⟨by simp [h1], h2⟩
      · rintro ⟨h1, h2⟩
        rcases List.mem_cons.mp h1 with h3 | h3
        · subst h3; exact absurd hx h2
        · exact ⟨h3, h2⟩
    · rw [if_neg hx]
      simp only [List.mem_cons, ih]
      constructor
      · rintro (h1 | ⟨h1, h2⟩)
        · subst h1; exact ⟨Or.inl rfl, hx⟩
        · refine ⟨Or.inr h1, fun hc => h2 (by simp [hc])⟩
      · rintro ⟨h1 | h1, h2⟩
        · exact Or.inl h1
        · by_cases hax : a = x
          · exact Or.inl hax
          · exact Or.inr ⟨h1, by simp [hax, h2]⟩

theorem mem_firstDedup {α : Type} [DecidableEq α] (a : α) (l : List α) :
    a ∈ firstDedup l ↔ a ∈ l := by
  rw [firstDedup, mem_firstDedupAux]
  simp

theorem firstDedupAux_nodup {α : Type} [DecidableEq α] :
    ∀ (l seen : List α), (firstDedupAux l seen).Nodup := by
  intro l
  induction l with
  | nil => intro seen; simp [firstDedupAux]
  | cons x xs ih =>
    intro seen
    simp only [firstDedupAux]
    by_cases hx : x ∈ seen
    · rw [if_pos hx]; exact ih seen
    · rw [if_neg hx]
      refine List.Nodup.cons ?_ (ih (x :: seen))
      intro hc
      exact ((mem_firstDedupAux x xs (x :: seen)).mp hc).2 (by simp)

theorem firstDedup_length_eq_card {α : Type} [DecidableEq α] (l : List α) :
    (firstDedup l).length = l.toFinset.card := by
  have h1 : (firstDedup l).toFinset = l.toFinset := by
    ext a
    simp [List.mem_toFinset, mem_firstDedup]
  rw [← h1]
  exact (List.toFinset_card_of_nodup (firstDedupAux_nodup l [])).symm

theorem firstDedup_length_le_of_subset {α : Type} [DecidableEq α]
    {l1 l2 : List α} (h : ∀ a ∈ l1, a ∈ l2) :
    (firstDedup l1).length ≤ (firstDedup l2).length := by
  rw [firstDedup_length_eq_card, firstDedup_length_eq_card]
  apply Finset.card_le_card
  intro a ha
  rw [List.mem_toFinset] at ha ⊢
  exact h a ha

theorem retained_sublist (occ : List String) (total : ℕ) {t1 t2 : ℚ}
    (h : t1 ≤ t2) : (retained occ total t2).Sublist (retained occ total t1) := by
  apply filter_sublist_of_imp
  intro a _ ha
  rw [decide_eq_true_eq] at ha ⊢
  exact le_trans h ha

theorem bbRetained_sublist (entries : List ((ℤ × ℤ) × String)) (total : ℕ)
    {t1 t2 : ℚ} (h : t1 ≤ t2) :
    (bbRetained entries total t2).Sublist (bbRetained entries total t1) := by
  apply filterMap_sublist_of_imp
  intro k _ b hb
  simp only [bbRetained] at *
  split at hb
  · next hcond =>
    rw [if_pos (le_trans h hcond)]
    exact hb
  · simp at hb

theorem fzRetained_sublist (groups : List FuzzyGroup) (total : ℕ)
    {t1 t2 : ℚ} (h : t1 ≤ t2) :
    (fzRetained groups total t2).Sublist (fzRetained groups total t1) := by
  apply filterMap_sublist_of_imp
  intro g _ b hb
  simp only [fzRetained] at *
  split at hb
  · next hcond =>
    rw [if_pos (le_trans h hcond)]
    exact hb
  · simp at hb

/-- C8: for a fixed sampled block set and each of the three algorithms,
raising detection_threshold shrinks (as a set) the retained header and
footer patterns and never increases their number. -/
theorem c8_threshold_monotone (pages : List Page) (t1 t2 : ℚ) (h : t1 ≤ t2) :
    ((∀ x ∈ (algTR pages t2).headers, x ∈ (algTR pages t1).headers) ∧
      (algTR pages t2).headers.length ≤ (algTR pages t1).headers.length ∧
      (∀ x ∈ (algTR pages t2).footers, x ∈ (algTR pages t1).footers) ∧
      (algTR pages t2).footers.length ≤ (algTR pages t1).footers.length) ∧
    ((∀ x ∈ (algBB pages t2).headers, x ∈ (algBB pages t1).headers) ∧
      (algBB pages t2).headers.length ≤ (algBB pages t1).headers.length ∧
      (∀ x ∈ (algBB pages t2).footers, x ∈ (algBB pages t1).footers) ∧
      (algBB pages t2).footers.length ≤ (algBB pages t1).footers.length) ∧
    ((∀ x ∈ (algFZ pages t2).headers, x ∈ (algFZ pages t1).headers) ∧
      (algFZ pages t2).headers.length ≤ (algFZ pages t1).headers.length ∧
      (∀ x ∈ (algFZ pages t2).footers, x ∈ (algFZ pages t1).footers) ∧
      (algFZ pages t2).footers.length ≤ (algFZ pages t1).footers.length) := by
  refine ⟨⟨?_, ?_, ?_, ?_⟩, ⟨?_, ?_, ?_, ?_⟩, ⟨?_, ?_, ?_, ?_⟩⟩
  · exact fun x hx => (retained_sublist _ _ h).subset hx
  · exact (retained_sublist _ _ h).length_le
  · exact fun x hx => (retained_sublist _ _ h).subset hx
  · exact (retained_sublist _ _ h).length_le
  · intro x hx
    simp only [algBB] at hx ⊢
    rw [mem_firstDedup] at hx ⊢
    exact (bbRetained_sublist _ _ h).subset hx
  · exact firstDedup_length_le_of_subset
      (fun a ha => (bbRetained_sublist _ _ h).subset ha)
  · intro x hx
    simp only [algBB] at hx ⊢
    rw [mem_firstDedup] at hx ⊢
    exact (bbRetained_sublist _ _ h).subset hx
  · exact firstDedup_length_le_of_subset
      (fun a ha => (bbRetained_sublist _ _ h).subset ha)
  · exact fun x hx => (fzRetained_sublist _ _ h).subset hx
  · exact (fzRetained_sublist _ _ h).length_le
  · exact fun x hx => (fzRetained_sublist _ _ h).subset hx
  · exact (fzRetained_sublist _ _ h).length_le

/-- C8 witness: thresholds 1/2 and 9/10 on a concrete one-page sample. -/
theorem c8_threshold_monotone_witness :
    ((1 : ℚ)/2 ≤ 9/10) ∧
    (∀ x ∈ (algTR [⟨100, [⟨0, 0, 10, 10, "abcd"⟩]⟩] (9/10)).headers,
      x ∈ (algTR [⟨100, [⟨0, 0, 10, 10, "abcd"⟩]⟩] ((1 : ℚ)/2)).headers) :=
  ⟨by norm_num,
   (c8_threshold_monotone [⟨100, [⟨0, 0, 10, 10, "abcd"⟩]⟩] ((1 : ℚ)/2) (9/10)
     (by norm_num)).1.1⟩

/-! ## C9: redaction matching -/

/-- The claim's span/pattern match, as one boolean: exact equality of the
trimmed text, full match of the wildcard-normalized regex, or similarity
at least 0.90. -/
def spec_matchesOne (t p : String) : Bool :=
  decide (t = p) ||
    (match compilePattern p with
     | .ok r => reFullMatch r t
     | .error _ => false) ||
    decide ((9 : ℚ)/10 ≤ ratioQ t p)

theorem textMatchesPattern_ok {p : String} (t : String)
    (h : (compilePattern p).isOk = true) :
    textMatchesPattern t p = .ok (spec_matchesOne t p) := by
  unfold textMatchesPattern spec_matchesOne
  by_cases he : t = p
  · simp [he]
  · cases hcp : compilePattern p with
    | error e => rw [hcp] at h; simp [Except.isOk, Except.toBool] at h
    | ok r =>
      simp only [he, if_false, hcp, decide_eq_true_eq]
      by_cases hf : reFullMatch r t = true
      · simp [hf]
      · have hf' : reFullMatch r t = false := Bool.eq_false_iff.mpr hf
        by_cases hr : (9 : ℚ)/10 ≤ ratioQ t p
        · simp [hf', hr]
        · simp [hf', hr, he]

theorem matchAnyPattern_ok (t : String) :
    ∀ ps : List String, (∀ p ∈ ps, (compilePattern p).isOk = true) →
      matchAnyPattern ps t = .ok (ps.any (spec_matchesOne t)) := by
  intro ps
  induction ps with
  | nil => intro _; rfl
  | cons p ps ih =>
    intro h
    simp only [matchAnyPattern, textMatchesPattern_ok t (h p (by simp))]
    cases hb : spec_matchesOne t p
    · simp only [List.any_cons, hb, Bool.false_or]
      exact ih (fun q hq => h q (by simp [hq]))
    · simp [List.any_cons, hb]

theorem spanShouldRemove_ok (headers footers : List String) (t : String)
    (h : ∀ p ∈ headers ++ footers, (compilePattern p).isOk = true) :
    spanShouldRemove headers footers t =
      .ok ((headers ++ footers).any (spec_matchesOne t)) := by
  have hh : ∀ p ∈ headers, (compilePattern p).isOk = true :=
    fun p hp => h p (by simp [hp])
  have hf : ∀ p ∈ footers, (compilePattern p).isOk = true :=
    fun p hp => h p (by simp [hp])
  simp only [spanShouldRemove, matchAnyPattern_ok t headers hh]
  cases hb : headers.any (spec_matchesOne t)
  · simp only [matchAnyPattern_ok t footers hf, List.any_append, hb, Bool.false_or]
  · simp [List.any_append, hb]

theorem exceptMapList_ok {α β : Type} (F : α → Except Unit β) (G : α → β) :
    ∀ l : List α, (∀ a ∈ l, F a = .ok (G a)) →
      exceptMapList F l = .ok (l.map G) := by
  intro l
  induction l with
  | nil => intro _; rfl
  | cons a as ih =>
    intro h
    simp only [exceptMapList, h a (by simp),
      ih (fun b hb => h b (by simp [hb])), List.map_cons]

/-- C9: with every pattern's wildcard-normalized form compiling (as
re.fullmatch requires), remove_headers_footers overlays exactly the spans
whose trimmed text exactly equals some given pattern, fully matches its
digit-run regex, or is at least 0.90-similar to it; all other spans stay
untouched, and removed_count counts the overlaid spans. -/
theorem c9_redaction_matching (headers footers : List String)
    (pages : List (List String))
    (hc : ∀ p ∈ headers ++ footers, (compilePattern p).isOk = true) :
    removeHeadersFooters headers footers pages =
      .ok (((pages.map (fun spans => spans.map (fun s =>
              (headers ++ footers).any (spec_matchesOne (pyStrip s))))).map
            (fun pg => pg.count true)).sum,
        pages.map (fun spans => spans.map (fun s =>
          (headers ++ footers).any (spec_matchesOne (pyStrip s))))) ∧
    (∀ t : String,
      ((headers ++ footers).any (spec_matchesOne t) = true ↔
        ∃ p ∈ headers ++ footers,
          t = p ∨ (∃ r, compilePattern p = .ok r ∧ reFullMatch r t = true) ∨
            (9 : ℚ)/10 ≤ ratioQ t p)) := by
  constructor
  · unfold removeHeadersFooters
    rw [exceptMapList_ok _
      (fun spans => spans.map (fun s =>
        (headers ++ footers).any (spec_matchesOne (pyStrip s)))) pages ?_]
    intro spans _
    exact exceptMapList_ok _
      (fun s => (headers ++ footers).any (spec_matchesOne (pyStrip s))) spans
      (fun s _ => spanShouldRemove_ok headers footers (pyStrip s) hc)
  · intro t
    rw [List.any_eq_true]
    constructor
    · rintro ⟨p, hp, hm⟩
      refine ⟨p, hp, ?_⟩
      unfold spec_matchesOne at hm
      rcases Bool.or_eq_true_iff.mp hm with h1 | h1
      · rcases Bool.or_eq_true_iff.mp h1 with h2 | h2
        · exact Or.inl (by simpa using h2)
        · refine Or.inr (Or.inl ?_)
          cases hcp : compilePattern p with
          | error e => rw [hcp] at h2; simp at h2
          | ok r => exact ⟨r, rfl, by rwa [hcp] at h2⟩
      · exact Or.inr (Or.inr (by simpa using h1))
    · rintro ⟨p, hp, h1 | ⟨r, hr, hf⟩ | h1⟩
      · exact ⟨p, hp, by simp [spec_matchesOne, h1]⟩
      · exact ⟨p, hp, by simp [spec_matchesOne, hr, hf]⟩
      · exact ⟨p, hp, by simp [spec_matchesOne, h1]⟩

/-- C9 witness: the pattern "Page #" compiles and the theorem applies to a
concrete page. -/
theorem c9_redaction_matching_witness :
    (∀ p ∈ ["Page #"] ++ ([] : List String), (compilePattern p).isOk = true) ∧
    removeHeadersFooters ["Page #"] [] [["Page 12", "Hello world"]] =
      .ok ((([["Page 12", "Hello world"]].map (fun spans => spans.map (fun s =>
              (["Page #"] ++ ([] : List String)).any
                (spec_matchesOne (pyStrip s))))).map
            (fun pg => pg.count true)).sum,
        [["Page 12", "Hello world"]].map (fun spans => spans.map (fun s =>
          (["Page #"] ++ ([] : List String)).any (spec_matchesOne (pyStrip s))))) :=
  ⟨by decide,
   (c9_redaction_matching ["Page #"] [] [["Page 12", "Hello world"]] (by decide)).1⟩
